import Mathlib

/-!
Verification of the output-parsing, navigation, command-execution and
history layers of the `weave` terminal front-end.

Strings are modelled as `List Char`.  Each definition is a direct shallow
embedding of the corresponding TypeScript function (file and symbol named
in its doc comment).  JavaScript regular-expression operations are
modelled by explicit left-to-right scanners with the same matching
semantics (leftmost match, non-overlapping global matches, alternatives
tried in order).
-/

namespace Weave

/-- The set of characters removed by JavaScript `String.prototype.trim`
(ECMAScript WhiteSpace and LineTerminator code points). -/
def isJsWs (c : Char) : Bool :=
  c = ' ' || c = '\t' || c = '\n' || c = '\r' || c = '\x0b' || c = '\x0c' ||
  c = '\u00A0' || c = '\u1680' || ('\u2000' ≤ c && c ≤ '\u200A') ||
  c = '\u2028' || c = '\u2029' || c = '\u202F' || c = '\u205F' ||
  c = '\u3000' || c = '\uFEFF'

/-- Strip leading JS whitespace. -/
def ltrim (l : List Char) : List Char := l.dropWhile isJsWs

/-- Strip trailing JS whitespace. -/
def rtrim (l : List Char) : List Char := (ltrim l.reverse).reverse

/-- JS `String.prototype.trim`: strip whitespace from both ends. -/
def trim (l : List Char) : List Char := rtrim (ltrim l)

/-- Consume `[0-9;]*` then a literal `m`, as in the body of the ANSI
escape pattern `\x1b\[[0-9;]*m`; returns the remainder after the `m`,
or `none` when the pattern does not match here. -/
def consumeParams : List Char → Option (List Char)
  | [] => none
  | c :: rest =>
    if c = 'm' then some rest
    else if c.isDigit || c = ';' then consumeParams rest
    else none

/-- One pass of `output.replace(/\x1b\[[0-9;]*m/g, '')`, written with an
explicit fuel argument (the fuel is always at least the length of the
list, so the fuel-out branch is never reached). -/
def stripAnsiFuel : Nat → List Char → List Char
  | 0, l => l
  | _ + 1, [] => []
  | fuel + 1, '\x1b' :: '[' :: rest2 =>
    match consumeParams rest2 with
    | some rest3 => stripAnsiFuel fuel rest3
    | none => '\x1b' :: stripAnsiFuel fuel ('[' :: rest2)
  | fuel + 1, c :: rest => c :: stripAnsiFuel fuel rest

/-- Model of `output.replace(/\x1b\[[0-9;]*m/g, '')`: remove every leftmost,
non-overlapping match of the ANSI colour pattern in one pass. -/
def stripAnsi (l : List Char) : List Char := stripAnsiFuel l.length l

/-- Model of `output.replace(/\r\n/g, '\n')`. -/
def replaceCrlf : List Char → List Char
  | '\r' :: '\n' :: rest => '\n' :: replaceCrlf rest
  | c :: rest => c :: replaceCrlf rest
  | [] => []

/-- Model of `ParsingUtils.cleanOutput` (src/utils/parsing.ts): strip ANSI colour
sequences, normalize CRLF to LF, trim. -/
def cleanOutput (l : List Char) : List Char := trim (replaceCrlf (stripAnsi l))

/-- Does the pattern `\x1b\[[0-9;]*m` match at the start of the list? -/
def startsAnsi : List Char → Bool
  | '\x1b' :: '[' :: rest2 => (consumeParams rest2).isSome
  | _ => false

/-- Does the list contain a substring matching `\x1b\[[0-9;]*m`? -/
def containsAnsi : List Char → Bool
  | [] => false
  | c :: rest => startsAnsi (c :: rest) || containsAnsi rest

/-! ### Lemmas about `trim` -/

/-! ### `cleanOutput` on strings with no ESC and no CR -/

/-! ### Claim C7 -/

/-! ### Command execution (src/hooks/useCommandExecution.ts) -/

/-- Record `CommandResult` (src/types): `duration` is only set by the streaming
mode. -/
structure CommandResult where
  success : Bool
  output : List Char
  error : List Char
  command : List Char
  duration : Option Nat
deriving DecidableEq, Repr

/-- Outcome of one `execAsync` subprocess invocation.  `promisify(exec)`
resolves only when the exit code is 0; a nonzero exit becomes a thrown
error carrying the captured `stderr`/`stdout` and a driver message. -/
inductive ExecOutcome where
  | completed (code : Int) (stdout stderr errMessage : List Char)
  | timeout
  | spawnFailure (errMessage : List Char)
deriving DecidableEq, Repr

/-- Model of `executeCommand` (simple-execute mode), on the non-cached
execution path as a function of the subprocess outcome. -/
def executeCommand (command : List Char) (outcome : ExecOutcome) : CommandResult :=
  match outcome with
  | .completed code stdout stderr errMessage =>
    if code = 0 then
      { success := trim stderr = [], output := cleanOutput stdout,
        error := trim stderr, command := command, duration := none }
    else
      let s := if stderr = [] then stdout else stderr
      let e := if trim s = [] then "Error executing command: ".toList ++ errMessage else trim s
      { success := false, error := e, command := command, output := stdout, duration := none }
  | .timeout =>
      { success := false,
        error := "Command timed out. Try again or check your connection.".toList,
        command := command, output := [], duration := none }
  | .spawnFailure errMessage =>
      { success := false, error := "Error executing command: ".toList ++ errMessage,
        command := command, output := [], duration := none }

/-- Constant `TIMEOUTS.RETRY_DELAY` (src/constants). -/
def retryDelay : Nat := 1000

/-- The aggregate failure message of `executeCommandWithRetry`. -/
def retryFailMessage (attempts : Nat) (lastError : List Char) : List Char :=
  "Command failed after ".toList ++ (Nat.repr attempts).toList ++ " attempts: ".toList ++ lastError

/-- Loop body of `executeCommandWithRetry`, as a recursion on the number
of retries remaining (`remaining = retries - attempt`).  Returns the
attempts performed as `(attemptIndex, skipCache)` pairs, the backoff
delays awaited between attempts, the final `lastError`, and the result of
the last attempt. -/
def retryAux (execF : Nat → Bool → CommandResult) :
    Nat → Nat → List (Nat × Bool) × List Nat × List Char × CommandResult
  | remaining, attempt =>
    let skip := decide (0 < attempt)
    let r := execF attempt skip
    if r.success then ([(attempt, skip)], [], [], r)
    else
      match remaining with
      | 0 => ([(attempt, skip)], [], r.error, r)
      | remaining1 + 1 =>
        let rest := retryAux execF remaining1 (attempt + 1)
        ((attempt, skip) :: rest.1, retryDelay * (attempt + 1) :: rest.2.1,
          rest.2.2.1, rest.2.2.2)

/-- Trace of one `executeCommandWithRetry` invocation. -/
structure RetryTrace where
  attempts : List (Nat × Bool)
  delays : List Nat
  finalMessage : Option (List Char)
  result : CommandResult
deriving DecidableEq, Repr

/-- Model of `executeCommandWithRetry`, given the per-attempt executor and the
effective `maxRetries` value. -/
def executeCommandWithRetry (execF : Nat → Bool → CommandResult)
    (command : List Char) (retries : Nat) : RetryTrace :=
  let t := retryAux execF retries 0
  if t.2.2.2.success then
    { attempts := t.1, delays := t.2.1, finalMessage := none, result := t.2.2.2 }
  else
    { attempts := t.1, delays := t.2.1,
      finalMessage := some (retryFailMessage (retries + 1) t.2.2.1),
      result := { success := false, error := t.2.2.1, command := command,
                  output := [], duration := none } }

/-- Rendering of the exit code in the rejection message of the streaming mode. -/
def codeRepr (code : Option Int) : List Char :=
  match code with
  | some n => (Int.repr n).toList
  | none => "null".toList

/-- The `close` handler of `executeCommandWithStatusUpdates`: given the
exit code, the accumulated stdout/stderr and the elapsed milliseconds, it
either resolves (`Except.ok`) with a `CommandResult` or rejects
(`Except.error`). -/
def closeStep (command : List Char) (code : Option Int)
    (outputAcc errorAcc : List Char) (elapsedMs : Nat) :
    Except (List Char) CommandResult :=
  let result : CommandResult :=
    { success := decide (code = some 0) && decide (trim errorAcc = []),
      output := cleanOutput outputAcc, error := trim errorAcc,
      command := command, duration := some (elapsedMs / 1000) }
  if code = some 0 then Except.ok result
  else Except.error
    (if errorAcc = [] then "Command exited with code ".toList ++ codeRepr code else errorAcc)

/-! ### Navigation (src/utils/navigation.ts) -/

/-- The two arrow-key flags of an ink `Key` event. -/
structure Key where
  upArrow : Bool
  downArrow : Bool
deriving DecidableEq, Repr

/-- Model of `handleNavigation`: move the selection cursor by ±1, guarded at the
ends. -/
def handleNavigation (key : Key) (currentIndex maxIndex : Int) : Int :=
  if key.upArrow ∧ currentIndex > 0 then currentIndex - 1
  else if key.downArrow ∧ currentIndex < maxIndex then currentIndex + 1
  else currentIndex

/-- Apply a sequence of key events to a cursor. -/
def navRun (keys : List Key) (start maxIndex : Int) : Int :=
  keys.foldl (fun i k => handleNavigation k i maxIndex) start

/-! ### History (useWeaveState.addToHistory, HistoryManager.createEntry) -/

/-- Constant `LIMITS.HISTORY_SIZE`. -/
def historySize : Nat := 50

/-- Constant `LIMITS.OUTPUT_PREVIEW`. -/
def outputPreview : Nat := 200

structure HistoryEntry where
  command : List Char
  timestamp : List Char
  success : Bool
  output : List Char
deriving DecidableEq, Repr

/-- Model of `HistoryManager.createEntry`: the stored output is
`result.output.substring(0, 200)`. -/
def createEntry (command : List Char) (result : CommandResult)
    (timestamp : List Char) : HistoryEntry :=
  { command := command, timestamp := timestamp, success := result.success,
    output := result.output.take outputPreview }

/-- Model of `addToHistory`: prepend the entry to the first `HISTORY_SIZE - 1`
existing entries. -/
def addToHistory (history : List HistoryEntry) (entry : HistoryEntry) :
    List HistoryEntry :=
  entry :: history.take (historySize - 1)

/-- Fold a sequence of appended entries into the history. -/
def addAllToHistory (history : List HistoryEntry) (entries : List HistoryEntry) :
    List HistoryEntry :=
  entries.foldl addToHistory history

/-! ### Workspace items and the item-selection handler (C6) -/

structure WorkspaceItem where
  name : List Char
  isNotebook : Bool
  isDataPipeline : Bool
  isSparkJobDefinition : Bool
deriving DecidableEq, Repr

/-- A workspace-items entry is `string | WorkspaceItem` in the source. -/
inductive WsItem where
  | str (s : List Char)
  | obj (w : WorkspaceItem)
deriving DecidableEq, Repr

def itemName : WsItem → List Char
  | .str s => s
  | .obj w => w.name

/-- Model of `ParsingUtils.isNotebook`. -/
def isNotebookItem : WsItem → Bool
  | .str s => (".Notebook".toList).isSuffixOf s
  | .obj w => w.isNotebook

/-- Model of `ParsingUtils.isDataPipeline`. -/
def isDataPipelineItem : WsItem → Bool
  | .str s => (".DataPipeline".toList).isSuffixOf s
  | .obj w => w.isDataPipeline

/-- Model of `ParsingUtils.isSparkJobDefinition`. -/
def isSparkJobDefItem : WsItem → Bool
  | .str s => (".SparkJobDefinition".toList).isSuffixOf s
  | .obj w => w.isSparkJobDefinition

/-- Model of `ParsingUtils.supportsJobActions`. -/
def supportsJobActions (item : WsItem) : Bool :=
  isNotebookItem item || isDataPipelineItem item || isSparkJobDefItem item

/-- View name `VIEWS.ITEM_ACTIONS`. -/
def viewItemActions : List Char := "item-actions".toList

/-- View name `VIEWS.OUTPUT`. -/
def viewOutput : List Char := "output".toList

/-- The error message set for items without job actions. -/
def notSupportedMessage (n : List Char) : List Char :=
  "Selected item \"".toList ++ n ++
  "\" does not support job actions. Only .Notebook, .Pipeline, and .SparkJobDefinition items can be run.".toList

/-- The state updates performed by one run of
`handleWorkspaceItemSelection`. -/
structure SelEffect where
  view : Option (List Char)
  errorMessage : Option (List Char)
  currentItem : Option (List Char × List Char)
deriving DecidableEq, Repr

/-- Model of `handleWorkspaceItemSelection`: `none` models the TypeError a JS run
would raise when the selected index is out of range. -/
def handleWorkspaceItemSelection (items : List WsItem) (selectedIdx : Nat)
    (workspaceName : List Char) : Option SelEffect :=
  if items.length = 0 then some { view := none, errorMessage := none, currentItem := none }
  else
    match items.get? selectedIdx with
    | none => none
    | some item =>
      if supportsJobActions item then
        some { view := some viewItemActions, errorMessage := none,
               currentItem := some (itemName item, workspaceName) }
      else
        some { view := some viewOutput,
               errorMessage := some (notSupportedMessage (itemName item)),
               currentItem := none }

/-! ### Claims C2 - C6, C10 -/

/-- Always-failing executor used to witness C4. -/
def alwaysFailExec : Nat → Bool → CommandResult :=
  fun _ _ => { success := false, error := "boom".toList, output := [],
               command := [], duration := none }

/-- Sample result used to witness C10. -/
def sampleResult : CommandResult :=
  { success := true, output := "ok".toList, error := [], command := "c".toList, duration := none }

/-- Sample history entry used to witness C10. -/
def sampleEntry : HistoryEntry := ⟨"c".toList, "t".toList, true, []⟩

/-! ### Line splitting and workspace parsing (src/utils/parsing.ts) -/

/-- JS `String.prototype.split` with a single-character separator. -/
def splitOnChar (sep : Char) : List Char → List (List Char)
  | [] => [[]]
  | c :: rest =>
    match splitOnChar sep rest with
    | [] => [[c]]
    | h :: t => if c = sep then [] :: h :: t else (c :: h) :: t

/-- The box-drawing vertical bar stripped by `parseJobStatus`. -/
def boxBar : Char := '│'

/-- The box-drawing horizontal dash used in header separators. -/
def boxDash : Char := '─'

/-- The default `skipPatterns` of `parseLines`. -/
def skipPatternsDefault : List (List Char) := ["Listing".toList, "ID".toList, [boxDash]]

/-- Model of `ParsingUtils.parseLines` with the default filters: split on newline,
trim each line, drop empty lines and lines starting with a header
prefix. -/
def parseLines (output : List Char) : List (List Char) :=
  ((splitOnChar '\n' output).map trim).filter
    (fun line => !line.isEmpty && !(skipPatternsDefault.any (fun p => p.isPrefixOf line)))

/-- The per-line mapping of `parseWorkspaces`: the trimmed part before
the first dot, when a dot is present. -/
def workspaceName (line : List Char) : List Char :=
  if '.' ∈ line then trim (line.takeWhile (fun c => c ≠ '.')) else trim line

/-- Model of `ParsingUtils.parseWorkspaces`. -/
def parseWorkspaces (output : List Char) : List (List Char) :=
  ((parseLines output).map workspaceName).filter (fun n => !n.isEmpty)

/-! ### GUID and substring scanning -/

/-- Model of `hay.includes(needle)`. -/
def containsSub (needle : List Char) : List Char → Bool
  | [] => needle.isEmpty
  | c :: rest => needle.isPrefixOf (c :: rest) || containsSub needle rest

/-- A lowercase-hex character, the `[a-f0-9]` class of `extractGuid`. -/
def isHexLower (c : Char) : Bool := c.isDigit || ('a' ≤ c && c ≤ 'f')

/-- Consume exactly `n` characters satisfying `p`; return the rest. -/
def charRun (p : Char → Bool) : Nat → List Char → Option (List Char)
  | 0, l => some l
  | _ + 1, [] => none
  | n + 1, c :: rest => if p c then charRun p n rest else none

/-- Consume a literal character. -/
def expectChar (c : Char) : List Char → Option (List Char)
  | x :: rest => if x = c then some rest else none
  | [] => none

/-- Does the 8-4-4-4-12 GUID pattern of `extractGuid` match at the start
of the list? -/
def guidAt (l : List Char) : Bool :=
  (do
    let l ← charRun isHexLower 8 l
    let l ← expectChar '-' l
    let l ← charRun isHexLower 4 l
    let l ← expectChar '-' l
    let l ← charRun isHexLower 4 l
    let l ← expectChar '-' l
    let l ← charRun isHexLower 4 l
    let l ← expectChar '-' l
    let _ ← charRun isHexLower 12 l
    pure ()).isSome

/-- Truthiness of `ParsingUtils.extractGuid`: does the text contain a
GUID anywhere? -/
def containsGuid : List Char → Bool
  | [] => false
  | c :: rest => guidAt (c :: rest) || containsGuid rest

/-! ### `parseJobStatus` building blocks -/

/-- The line-skipping guard of the `parseJobStatus` loop. -/
def statusSkipLine (line : List Char) : Bool :=
  decide (trim line = []) || containsSub (List.replicate 6 boxDash) line ||
  containsSub ("id".toList) line || containsSub ("itemId".toList) line

/-- Model of `line.replace(/^\s*│\s*/, '')`. -/
def stripLeadingBar (line : List Char) : List Char :=
  match line.dropWhile isJsWs with
  | c :: rest2 => if c = boxBar then rest2.dropWhile isJsWs else line
  | [] => line

/-- Model of `line.replace(/\s*│\s*$/, '')`. -/
def stripTrailingBar (line : List Char) : List Char :=
  match line.reverse.dropWhile isJsWs with
  | c :: rest2 => if c = boxBar then (rest2.dropWhile isJsWs).reverse else line
  | [] => line

/-- The `cleanLine` computed for a matching data row. -/
def cleanLine (line : List Char) : List Char := trim (stripTrailingBar (stripLeadingBar line))

/-- JS `\w` (ASCII word character). -/
def isWordChar (c : Char) : Bool := c.isAlpha || c.isDigit || c = '_'

/-- Case-insensitive match of `pattern` at the head of `input`; returns
the matched input characters (original casing) and the rest. -/
def matchCI : List Char → List Char → Option (List Char × List Char)
  | [], l => some ([], l)
  | _ :: _, [] => none
  | p :: ps, c :: cs =>
    if c.toLower = p.toLower then
      match matchCI ps cs with
      | some (m, r) => some (c :: m, r)
      | none => none
    else none

/-- Try the alternatives in order at this position; an alternative
succeeds only when the character after the match is not a word character
(the trailing `\b`). -/
def matchAlts : List (List Char) → List Char → Option (List Char)
  | [], _ => none
  | a :: as, l =>
    match matchCI a l with
    | some (m, r) =>
      if (match r with | [] => true | c :: _ => !isWordChar c) then some m
      else matchAlts as l
    | none => matchAlts as l

/-- Leftmost case-insensitive keyword search with word boundaries, as in
`cleanLine.match(/\b(...)\b/i)`; `prev` is the character before the
current position. -/
def keywordSearch (alts : List (List Char)) (prev : Option Char) : List Char → Option (List Char)
  | [] => none
  | c :: rest =>
    let boundaryOk := match prev with | none => true | some p => !isWordChar p
    match (if boundaryOk then matchAlts alts (c :: rest) else none) with
    | some m => some m
    | none => keywordSearch alts (some c) rest

/-- First keyword of `alts` found in `l`, with its input casing. -/
def findKeyword (alts : List (List Char)) (l : List Char) : Option (List Char) :=
  keywordSearch alts none l

/-- The closed status vocabulary, in the order of the alternation. -/
def statusAlts : List (List Char) :=
  ["InProgress".toList, "Completed".toList, "Failed".toList, "NotStarted".toList,
   "Succeeded".toList]

/-- The closed job-type vocabulary, in the order of the alternation. -/
def jobTypeAlts : List (List Char) :=
  ["RunNotebook".toList, "RunPipeline".toList, "RunDataPipeline".toList,
   "RunSparkJobDefinition".toList]

/-- Match the timestamp pattern
`\d{4}-\d{2}-\d{2}[T\s]\d{2}:\d{2}:\d{2}(?:\.\d+)?(?:Z|[+-]\d{2}:?\d{2})?`
at the start of the list, returning the rest after the match. -/
def timestampAt (l : List Char) : Option (List Char) := do
  let l ← charRun Char.isDigit 4 l
  let l ← expectChar '-' l
  let l ← charRun Char.isDigit 2 l
  let l ← expectChar '-' l
  let l ← charRun Char.isDigit 2 l
  let l ← (match l with
           | c :: rest => if c = 'T' || isJsWs c then some rest else none
           | [] => none)
  let l ← charRun Char.isDigit 2 l
  let l ← expectChar ':' l
  let l ← charRun Char.isDigit 2 l
  let l ← expectChar ':' l
  let l ← charRun Char.isDigit 2 l
  let l := (match l with
            | '.' :: c :: rest =>
              if c.isDigit then (c :: rest).dropWhile Char.isDigit else '.' :: c :: rest
            | other => other)
  let l := (match l with
            | 'Z' :: rest => rest
            | c :: rest =>
              if c = '+' || c = '-' then
                match charRun Char.isDigit 2 rest with
                | some l2 =>
                  (match l2 with
                   | ':' :: r =>
                     (match charRun Char.isDigit 2 r with
                      | some l4 => l4
                      | none => c :: rest)
                   | _ =>
                     (match charRun Char.isDigit 2 l2 with
                      | some l4 => l4
                      | none => c :: rest))
                | none => c :: rest
              else c :: rest
            | [] => [])
  some l

/-- Global scan for all timestamp matches (leftmost, non-overlapping),
with a fuel argument bounded by the list length. -/
def scanTimestampsFuel : Nat → List Char → List (List Char)
  | 0, _ => []
  | _ + 1, [] => []
  | fuel + 1, c :: rest =>
    match timestampAt (c :: rest) with
    | some remaining =>
      ((c :: rest).take ((c :: rest).length - remaining.length)) ::
        scanTimestampsFuel fuel remaining
    | none => scanTimestampsFuel fuel rest

/-- Model of `cleanLine.match(/...timestamp.../g)`: the list of matches. -/
def scanTimestamps (l : List Char) : List (List Char) := scanTimestampsFuel l.length l

/-- Model of `s.replace(' ', 'T')`: replace the first space. -/
def replaceFirstSpace : List Char → List Char
  | [] => []
  | c :: rest => if c = ' ' then 'T' :: rest else c :: replaceFirstSpace rest

/-- Truthiness of `s.match(/[+-]\d{2}:?\d{2}$/)`. -/
def hasTrailingOffset (s : List Char) : Bool :=
  (match s.reverse with
   | d1 :: d2 :: ':' :: d3 :: d4 :: c :: _ =>
     d1.isDigit && d2.isDigit && d3.isDigit && d4.isDigit && (c = '+' || c = '-')
   | _ => false) ||
  (match s.reverse with
   | d1 :: d2 :: d3 :: d4 :: c :: _ =>
     d1.isDigit && d2.isDigit && d3.isDigit && d4.isDigit && (c = '+' || c = '-')
   | _ => false)

/-- The timestamp normalization applied to `startTime`/`endTime`:
`replace(' ', 'T')` and a `Z` suffix when no zone marker is present. -/
def normalizeTs (t : List Char) : List Char :=
  let s := replaceFirstSpace t
  if ('Z' ∈ s) || hasTrailingOffset s then s else s ++ ['Z']

structure StatusInfo where
  status : List Char
  startTime : Option (List Char)
  endTime : Option (List Char)
  jobType : Option (List Char)
deriving DecidableEq, Repr

/-- Parse the single matching data row of the status table. -/
def parseStatusLine (line : List Char) : StatusInfo :=
  let cl := cleanLine line
  let status := match findKeyword statusAlts cl with
                | some m => m
                | none => "Unknown".toList
  let jobType := findKeyword jobTypeAlts cl
  let tss := scanTimestamps cl
  let startTime := tss.head?.map normalizeTs
  let endTime :=
    match tss with
    | [] => none
    | t0 :: rest =>
      match rest.getLast? with
      | none => none
      | some tl => if tl ≠ t0 then some (normalizeTs tl) else none
  { status := status, startTime := startTime, endTime := endTime, jobType := jobType }

/-- The loop of `parseJobStatus`: the first line that passes the skip
guard and contains a GUID. -/
def findStatusLine : List (List Char) → Option (List Char)
  | [] => none
  | line :: rest =>
    if statusSkipLine line then findStatusLine rest
    else if containsGuid line then some line
    else findStatusLine rest

/-- The post-processing step: an `endTime` equal to the string `"None"`
or equal to `startTime` is forced to `null`. -/
def postProcessStatus (si : StatusInfo) : StatusInfo :=
  if si.endTime = some ("None".toList) ∨ si.endTime = si.startTime then
    { si with endTime := none }
  else si

/-- Model of `ParsingUtils.parseJobStatus`. -/
def parseJobStatus (output : List Char) : StatusInfo :=
  postProcessStatus
    (match findStatusLine (splitOnChar '\n' output) with
     | some line => parseStatusLine line
     | none => { status := "Unknown".toList, startTime := none, endTime := none,
                 jobType := none })

/-! ### Job polling (src/hooks/useJobPolling.ts) -/

structure JobInfo where
  jobId : List Char
  workspace : List Char
  notebook : List Char
  startTime : Nat
deriving DecidableEq, Repr

/-- The terminal-status list of the poller, compared case-sensitively:
`['Completed', 'Succeeded', 'Failed'].includes(statusInfo.status)`. -/
def isTerminalStatus (s : List Char) : Bool :=
  ["Completed".toList, "Succeeded".toList, "Failed".toList].contains s

/-- The `(workspace, notebook)` pairs for which one polling tick invokes
`onJobCompleted`. -/
def completedCallbacks (jobs : List JobInfo) (statusOf : JobInfo → StatusInfo) :
    List (List Char × List Char) :=
  (jobs.filter (fun j => isTerminalStatus (statusOf j).status)).map
    (fun j => (j.workspace, j.notebook))

/-! ### Claims C1, C8, C9 -/

/-- A status-table output whose data row has two distinct timestamps. -/
def c1TwoDistinct : List Char :=
  ("Run details\n│ id │ status │\n│ 8f14e45f-ceea-4678-b123-9a0b1c2d3e4f │ Completed │ " ++
   "RunNotebook │ 2024-01-01 10:00:00 │ 2024-01-01 10:05:00 │").toList

/-- The same data row with two identical timestamps. -/
def c1TwoEqual : List Char :=
  ("│ 8f14e45f-ceea-4678-b123-9a0b1c2d3e4f │ Completed │ RunNotebook │ " ++
   "2024-01-01 10:00:00 │ 2024-01-01 10:00:00 │").toList

/-- A data row whose timestamps are `[a, b, a]`: a second, distinct
timestamp exists but the last timestamp equals the first. -/
def c1ThreeABA : List Char :=
  ("8f14e45f-ceea-4678-b123-9a0b1c2d3e4f Completed 2024-01-01 10:00:00 " ++
   "2024-01-01 11:00:00 2024-01-01 10:00:00").toList

/-- A data row whose timestamps are `[a, b, c]`, pairwise distinct. -/
def c1ThreeABC : List Char :=
  ("8f14e45f-ceea-4678-b123-9a0b1c2d3e4f Completed 2024-01-01 10:00:00 " ++
   "2024-01-01 11:00:00 2024-01-01 12:00:00").toList

/-- The two-distinct-timestamps output followed by a second data row
with a different status. -/
def c1TwoLines : List Char :=
  c1TwoDistinct ++ '\n' ::
    ("│ 9a14e45f-ceea-4678-b123-9a0b1c2d3e4f │ Failed │ 2024-02-02 10:00:00 │").toList

/-- An output whose data row spells the status in lowercase. -/
def c8Output : List Char :=
  "8f14e45f-ceea-4678-b123-9a0b1c2d3e4f completed 2024-01-01 10:00:00".toList

/-- An active job polled against `c8Output`. -/
def c8Job : JobInfo := ⟨"j1".toList, "ws".toList, "nb".toList, 0⟩

set_option maxRecDepth 100000

theorem consumeParams_length {l r : List Char} (h : consumeParams l = some r) :
    r.length < l.length := by
  induction l generalizing r with
  | nil => simp [consumeParams] at h
  | cons c rest ih =>
    unfold consumeParams at h
    by_cases hm : c = 'm'
    · simp [hm] at h
      subst h
      simp [List.length_cons]
    · by_cases hd : c.isDigit || c = ';'
      · simp [hm, hd] at h
        have := ih h
        simp only [List.length_cons]
        omega
      · simp [hm, hd] at h

theorem rtrim_eq_rdropWhile (l : List Char) : rtrim l = List.rdropWhile isJsWs l := rfl

theorem ltrim_idem (l : List Char) : ltrim (ltrim l) = ltrim l :=
  List.dropWhile_idempotent isJsWs l

theorem rtrim_idem (l : List Char) : rtrim (rtrim l) = rtrim l := by
  simp only [rtrim_eq_rdropWhile]
  exact List.rdropWhile_idempotent isJsWs l

theorem ltrim_rtrim_ltrim (l : List Char) : ltrim (rtrim (ltrim l)) = rtrim (ltrim l) := by
  simp only [rtrim_eq_rdropWhile, ltrim]
  rw [List.dropWhile_eq_self_iff]
  intro hl
  have hpre := List.rdropWhile_prefix isJsWs (List.dropWhile isJsWs l)
  have h0 : 0 < (List.dropWhile isJsWs l).length := lt_of_lt_of_le hl hpre.length_le
  have hnot := List.dropWhile_get_zero_not isJsWs l h0
  have hget := hpre.getElem (n := 0) hl
  simpa [List.get_eq_getElem, hget] using hnot

theorem trim_idem (l : List Char) : trim (trim l) = trim l := by
  unfold trim
  rw [ltrim_rtrim_ltrim, rtrim_idem]

theorem mem_ltrim {x : Char} {l : List Char} (h : x ∈ ltrim l) : x ∈ l :=
  ((List.dropWhile_suffix isJsWs).sublist).mem h

theorem mem_rtrim {x : Char} {l : List Char} (h : x ∈ rtrim l) : x ∈ l := by
  rw [rtrim_eq_rdropWhile] at h
  exact ((List.rdropWhile_prefix isJsWs l).sublist).mem h

theorem mem_trim {x : Char} {l : List Char} (h : x ∈ trim l) : x ∈ l :=
  mem_ltrim (mem_rtrim h)

theorem stripAnsiFuel_cons_ne (fuel : Nat) (c : Char) (rest : List Char) (hc : c ≠ '\x1b') :
    stripAnsiFuel (fuel + 1) (c :: rest) = c :: stripAnsiFuel fuel rest := by
  rw [stripAnsiFuel.eq_def]
  split
  · omega
  · rename_i heq₁ heq₂
    exact absurd heq₂ (by simp)
  · rename_i heq₁ heq₂
    exact absurd (List.cons_eq_cons.mp heq₂).1 hc
  · rename_i hne heq₁ heq₂
    obtain ⟨h1, h2⟩ := List.cons_eq_cons.mp heq₂
    have h0 : _ = fuel := Nat.succ_injective heq₁.symm
    subst h1; subst h2; subst h0
    rfl

theorem stripAnsi_no_esc (l : List Char) (h : ∀ c ∈ l, c ≠ '\x1b') : stripAnsi l = l := by
  suffices hs : ∀ fuel, stripAnsiFuel fuel l = l from hs l.length
  intro fuel
  induction l generalizing fuel with
  | nil => cases fuel <;> rfl
  | cons c rest ih =>
    have hc : c ≠ '\x1b' := h c (by simp)
    have hrest : ∀ x ∈ rest, x ≠ '\x1b' := fun x hx => h x (by simp [hx])
    cases fuel with
    | zero => rfl
    | succ f =>
      rw [stripAnsiFuel_cons_ne f c rest hc, ih hrest]

theorem replaceCrlf_cons_ne (c : Char) (rest : List Char) (hc : c ≠ '\r') :
    replaceCrlf (c :: rest) = c :: replaceCrlf rest := by
  rw [replaceCrlf.eq_def]
  split
  · rename_i heq
    exact absurd (List.cons_eq_cons.mp heq).1 hc
  · rename_i hne heq
    obtain ⟨h1, h2⟩ := List.cons_eq_cons.mp heq
    subst h1; subst h2
    rfl
  · rename_i heq
    exact absurd heq (by simp)

theorem replaceCrlf_no_cr (l : List Char) (h : ∀ c ∈ l, c ≠ '\r') : replaceCrlf l = l := by
  induction l with
  | nil => rfl
  | cons c rest ih =>
    have hc : c ≠ '\r' := h c (by simp)
    have hrest : ∀ x ∈ rest, x ≠ '\r' := fun x hx => h x (by simp [hx])
    rw [replaceCrlf_cons_ne c rest hc, ih hrest]

theorem startsAnsi_false_of_ne (c : Char) (rest : List Char) (hc : c ≠ '\x1b') :
    startsAnsi (c :: rest) = false := by
  rw [startsAnsi.eq_def]
  split
  · rename_i heq
    exact absurd (List.cons_eq_cons.mp heq).1 hc
  · rfl

theorem containsAnsi_no_esc (l : List Char) (h : ∀ c ∈ l, c ≠ '\x1b') :
    containsAnsi l = false := by
  induction l with
  | nil => rfl
  | cons c rest ih =>
    have hc : c ≠ '\x1b' := h c (by simp)
    have hrest : ∀ x ∈ rest, x ≠ '\x1b' := fun x hx => h x (by simp [hx])
    rw [containsAnsi, ih hrest, startsAnsi_false_of_ne c rest hc]
    rfl

theorem cleanOutput_eq_trim (l : List Char) (hEsc : ∀ c ∈ l, c ≠ '\x1b')
    (hCr : ∀ c ∈ l, c ≠ '\r') : cleanOutput l = trim l := by
  unfold cleanOutput
  rw [stripAnsi_no_esc l hEsc, replaceCrlf_no_cr l hCr]

/-- C7 counterexample: `cleanOutput` is not idempotent — on `"a\r\r\nb"`
the CRLF collapse of the first pass creates a new CRLF pair that only the
second pass removes — and a string containing `\x1b[...m` escape
sequences can still contain one after `cleanOutput`: in
`"\x1b[\x1b[31m31m"` removing the inner escape sequence assembles a new
one out of the surrounding characters. -/
theorem c7_counterexample :
    cleanOutput (cleanOutput ("a\r\r\nb".toList)) ≠ cleanOutput ("a\r\r\nb".toList) ∧
    containsAnsi ("\x1b[\x1b[31m31m".toList) = true ∧
    containsAnsi (cleanOutput ("\x1b[\x1b[31m31m".toList)) = true := by
  refine ⟨?_, by decide, by decide⟩
  decide

/-- C7 (amended): on strings containing no ESC (`\x1b`) and no CR (`\r`)
character, `cleanOutput` coincides with JS `trim` and is idempotent, and
its result contains no `\x1b[...m` sequence.  (On general strings a
single pass can leave residual CRLF pairs or escape sequences assembled
by its own deletions, so idempotence and complete stripping fail; see the
counterexample.) -/
theorem c7_cleanOutput_idempotent_amended (l : List Char)
    (hEsc : ∀ c ∈ l, c ≠ '\x1b') (hCr : ∀ c ∈ l, c ≠ '\r') :
    cleanOutput (cleanOutput l) = cleanOutput l ∧
    cleanOutput l = trim l ∧
    containsAnsi (cleanOutput l) = false := by
  have htrim : cleanOutput l = trim l := cleanOutput_eq_trim l hEsc hCr
  have hEsc2 : ∀ c ∈ trim l, c ≠ '\x1b' := fun c hc => hEsc c (mem_trim hc)
  have hCr2 : ∀ c ∈ trim l, c ≠ '\r' := fun c hc => hCr c (mem_trim hc)
  refine ⟨?_, htrim, ?_⟩
  · rw [htrim, cleanOutput_eq_trim (trim l) hEsc2 hCr2, trim_idem]
  · rw [htrim]
    exact containsAnsi_no_esc (trim l) hEsc2

/-- Witness for C7 (amended) at the concrete input `"  hi there  "`. -/
theorem c7_witness :
    cleanOutput (cleanOutput ("  hi there  ".toList)) = cleanOutput ("  hi there  ".toList) ∧
    cleanOutput ("  hi there  ".toList) = trim ("  hi there  ".toList) ∧
    containsAnsi (cleanOutput ("  hi there  ".toList)) = false :=
  c7_cleanOutput_idempotent_amended ("  hi there  ".toList) (by decide) (by decide)

/-- C3: in simple-execute mode a completed subprocess yields
`success = true` exactly when the exit code is 0 and stderr trims to
empty; any non-whitespace stderr gives `success = false` even on exit
code 0. -/
theorem c3_executeCommand_success_iff (command : List Char) (code : Int)
    (stdout stderr errMessage : List Char) :
    (executeCommand command (.completed code stdout stderr errMessage)).success = true ↔
      (code = 0 ∧ trim stderr = []) := by
  unfold executeCommand
  by_cases h : code = 0 <;> simp [h]

/-- C2 counterexample: with exit code 0 and non-empty stderr the
streaming close handler RESOLVES (with `success = false`), it does not
reject, contradicting the claim that non-empty stderr causes a
rejection. -/
theorem c2_counterexample :
    closeStep ("run job".toList) (some 0) ("done".toList) ("warning\n".toList) 2500 =
      Except.ok { success := false, output := "done".toList, error := "warning".toList,
                  command := "run job".toList, duration := some 2 } ∧
    trim ("warning\n".toList) ≠ [] := by
  exact ⟨by rfl, by decide⟩

/-- C2 (amended): the streaming close handler rejects exactly when the
exit code differs from 0 (non-empty stderr alone does not cause a
rejection: with exit code 0 it resolves with `success = false`); every
resolved result carries `duration = elapsedMs / 1000` (whole seconds)
and `success` true iff stderr trims to empty. -/
theorem c2_closeStep_amended (command : List Char) (code : Option Int)
    (outputAcc errorAcc : List Char) (elapsedMs : Nat) :
    ((closeStep command code outputAcc errorAcc elapsedMs).isOk = true ↔ code = some 0) ∧
    (∀ r, closeStep command code outputAcc errorAcc elapsedMs = Except.ok r →
      r.duration = some (elapsedMs / 1000) ∧ (r.success = true ↔ trim errorAcc = [])) := by
  constructor
  · by_cases h : code = some 0 <;> simp [closeStep, h, Except.isOk, Except.toBool]
  · intro r hr
    unfold closeStep at hr
    by_cases h : code = some 0
    · simp only [h, if_pos] at hr
      cases hr
      simp [h]
    · simp [h] at hr

/-- Witness for C2 (amended) at exit code 0, empty stderr, 1500 ms. -/
theorem c2_witness :
    (({ success := true, output := [], error := [], command := "c".toList,
        duration := some (1500 / 1000) } : CommandResult).duration = some (1500 / 1000)) ∧
    (({ success := true, output := [], error := [], command := "c".toList,
        duration := some (1500 / 1000) } : CommandResult).success = true ↔
      trim ([] : List Char) = []) :=
  (c2_closeStep_amended ("c".toList) (some 0) [] [] 1500).2
    { success := true, output := [], error := [], command := "c".toList,
      duration := some (1500 / 1000) } (by rfl)

/-- C4: with `maxRetries = 2` and an always-failing executor, the retry
wrapper performs exactly 3 attempts (indices 0,1,2), skips the cache on
every attempt after the first, waits `retryDelay * attemptNumber`
between attempts, and ends with `success = false` and an aggregate
message citing 3 attempts. -/
theorem c4_retry_three_attempts (execF : Nat → Bool → CommandResult) (command : List Char)
    (hfail : ∀ n s, (execF n s).success = false) :
    (executeCommandWithRetry execF command 2).attempts = [(0, false), (1, true), (2, true)] ∧
    (executeCommandWithRetry execF command 2).delays = [retryDelay * 1, retryDelay * 2] ∧
    (executeCommandWithRetry execF command 2).result.success = false ∧
    (executeCommandWithRetry execF command 2).finalMessage =
      some (retryFailMessage 3 ((execF 2 true).error)) ∧
    retryFailMessage 3 ("boom".toList) = "Command failed after 3 attempts: boom".toList := by
  refine ⟨?_, ?_, ?_, ?_, by decide⟩ <;>
    simp [executeCommandWithRetry, retryAux, hfail, retryDelay]

/-- Witness for C4 with the concrete always-failing executor. -/
theorem c4_witness :
    (executeCommandWithRetry alwaysFailExec ("cmd".toList) 2).attempts =
      [(0, false), (1, true), (2, true)] ∧
    (executeCommandWithRetry alwaysFailExec ("cmd".toList) 2).delays =
      [retryDelay * 1, retryDelay * 2] ∧
    (executeCommandWithRetry alwaysFailExec ("cmd".toList) 2).result.success = false ∧
    (executeCommandWithRetry alwaysFailExec ("cmd".toList) 2).finalMessage =
      some (retryFailMessage 3 ((alwaysFailExec 2 true).error)) ∧
    retryFailMessage 3 ("boom".toList) = "Command failed after 3 attempts: boom".toList :=
  c4_retry_three_attempts alwaysFailExec ("cmd".toList) (fun _ _ => rfl)

/-- C5: starting from a cursor in `[0, maxIndex]`, any sequence of key
events leaves the cursor in `[0, maxIndex]`: Up never moves below 0 and
Down never moves above `maxIndex`. -/
theorem c5_cursor_stays_in_range (keys : List Key) (maxIndex start : Int)
    (h0 : 0 ≤ start) (h1 : start ≤ maxIndex) :
    0 ≤ navRun keys start maxIndex ∧ navRun keys start maxIndex ≤ maxIndex := by
  induction keys generalizing start with
  | nil => exact ⟨h0, h1⟩
  | cons k ks ih =>
    have hstep : 0 ≤ handleNavigation k start maxIndex ∧
        handleNavigation k start maxIndex ≤ maxIndex := by
      unfold handleNavigation
      split_ifs <;> omega
    rw [navRun]
    exact ih _ hstep.1 hstep.2

/-- Witness for C5: two rows plus the back entry, four key presses. -/
theorem c5_witness :
    0 ≤ navRun [⟨true, false⟩, ⟨false, true⟩, ⟨false, true⟩, ⟨false, true⟩] 0 2 ∧
    navRun [⟨true, false⟩, ⟨false, true⟩, ⟨false, true⟩, ⟨false, true⟩] 0 2 ≤ 2 :=
  c5_cursor_stays_in_range [⟨true, false⟩, ⟨false, true⟩, ⟨false, true⟩, ⟨false, true⟩] 2 0
    (by decide) (by decide)

/-- C6: selecting an in-range item that does not support job actions
never transitions to the ItemActions view; the handler sets the
not-supported error message and moves to the Output view. -/
theorem c6_unsupported_item_goes_to_output (items : List WsItem) (selectedIdx : Nat)
    (workspaceName : List Char) (h : selectedIdx < items.length)
    (hns : supportsJobActions (items.get ⟨selectedIdx, h⟩) = false) :
    handleWorkspaceItemSelection items selectedIdx workspaceName =
      some { view := some viewOutput,
             errorMessage := some (notSupportedMessage (itemName (items.get ⟨selectedIdx, h⟩))),
             currentItem := none } ∧
    (∀ eff, handleWorkspaceItemSelection items selectedIdx workspaceName = some eff →
      eff.view ≠ some viewItemActions) := by
  have hne : ¬(items.length = 0) := by omega
  simp only [List.get_eq_getElem] at hns
  have hget2 : items[selectedIdx]? = some (items[selectedIdx]) :=
    List.getElem?_eq_getElem h
  constructor
  · unfold handleWorkspaceItemSelection
    simp [hne, hget2, hns]
  · intro eff heff
    unfold handleWorkspaceItemSelection at heff
    simp [hne, hget2, hns] at heff
    subst heff
    simp only [ne_eq, Option.some.injEq]
    decide

/-- Witness for C6: a `.SemanticModel` item (no job-action suffix). -/
theorem c6_witness :
    handleWorkspaceItemSelection [WsItem.str ("Report.SemanticModel".toList)] 0 ("ws".toList) =
      some { view := some viewOutput,
             errorMessage := some (notSupportedMessage ("Report.SemanticModel".toList)),
             currentItem := none } := by
  exact (c6_unsupported_item_goes_to_output [WsItem.str ("Report.SemanticModel".toList)] 0
    ("ws".toList) (by decide) (by decide)).1

/-- C10: the history is newest-first with length at most 50 after any
nonempty sequence of appends (appending to a full list drops the oldest
entry), and a created entry stores the first 200 characters of the
command output. -/
theorem c10_history_invariants (history : List HistoryEntry) (entries : List HistoryEntry)
    (entry : HistoryEntry) (command : List Char) (result : CommandResult)
    (timestamp : List Char) (hne : entries ≠ []) :
    (addAllToHistory history entries).length ≤ historySize ∧
    (addAllToHistory history entries).head? = entries.getLast? ∧
    (addToHistory history entry).head? = some entry ∧
    (addToHistory history entry).tail = history.take (historySize - 1) ∧
    (history.length = historySize → addToHistory history entry = entry :: history.dropLast) ∧
    (createEntry command result timestamp).output = result.output.take 200 := by
  have hlen : ∀ (h : List HistoryEntry) (e : HistoryEntry),
      (addToHistory h e).length ≤ historySize := by
    intro h e
    simp only [addToHistory, List.length_cons, List.length_take, historySize]
    omega
  have hmain : ∀ (es : List HistoryEntry) (h : List HistoryEntry), es ≠ [] →
      (addAllToHistory h es).length ≤ historySize ∧
      (addAllToHistory h es).head? = es.getLast? := by
    intro es
    induction es with
    | nil => intro h hcon; exact absurd rfl hcon
    | cons e es ih =>
      intro h _
      cases es with
      | nil =>
        refine ⟨hlen h e, ?_⟩
        simp [addAllToHistory, addToHistory]
      | cons e2 es2 =>
        have hih := ih (addToHistory h e) (by simp)
        refine ⟨hih.1, ?_⟩
        rw [List.getLast?_cons_cons]
        exact hih.2
  refine ⟨(hmain entries history hne).1, (hmain entries history hne).2, rfl, rfl, ?_, rfl⟩
  intro hfull
  rw [List.dropLast_eq_take, hfull]
  rfl

/-- Witness for C10 with a singleton append to an empty history. -/
theorem c10_witness :
    (addAllToHistory [] [sampleEntry]).length ≤ historySize ∧
    (addAllToHistory [] [sampleEntry]).head? = ([sampleEntry] : List HistoryEntry).getLast? ∧
    (addToHistory [] sampleEntry).head? = some sampleEntry ∧
    (addToHistory [] sampleEntry).tail = List.take (historySize - 1) [] ∧
    (([] : List HistoryEntry).length = historySize →
      addToHistory [] sampleEntry = sampleEntry :: List.dropLast []) ∧
    (createEntry ("c".toList) sampleResult ("t".toList)).output =
      sampleResult.output.take 200 :=
  c10_history_invariants [] [sampleEntry] sampleEntry ("c".toList) sampleResult ("t".toList)
    (by simp)

theorem splitOnChar_ne_nil (sep : Char) (l : List Char) : splitOnChar sep l ≠ [] := by
  induction l with
  | nil => simp [splitOnChar]
  | cons c rest ih =>
    rw [splitOnChar]
    cases h : splitOnChar sep rest with
    | nil => simp
    | cons a t => by_cases hc : c = sep <;> simp [hc]

theorem splitOnChar_append (sep : Char) (l rest : List Char) (h : sep ∉ l) :
    splitOnChar sep (l ++ sep :: rest) = l :: splitOnChar sep rest := by
  induction l with
  | nil =>
    simp only [List.nil_append]
    rw [splitOnChar]
    cases hs : splitOnChar sep rest with
    | nil => exact absurd hs (splitOnChar_ne_nil sep rest)
    | cons a t => simp
  | cons c l ih =>
    have hc : ¬(c = sep) := fun hcc => h (by simp [hcc])
    have hmem : sep ∉ l := fun hm => h (by simp [hm])
    simp only [List.cons_append]
    rw [splitOnChar, ih hmem]
    simp [hc]

/-- One leading line decomposition of `parseLines`. -/
theorem parseLines_cons (l rest : List Char) (h : '\n' ∉ l) :
    parseLines (l ++ '\n' :: rest) =
      (if (!(trim l).isEmpty &&
           !(skipPatternsDefault.any (fun p => p.isPrefixOf (trim l)))) = true
       then [trim l] else []) ++ parseLines rest := by
  unfold parseLines
  rw [splitOnChar_append _ _ _ h]
  simp only [List.map_cons, List.filter_cons]
  split <;> simp

/-- The post-processing guarantee of `parseJobStatus`: a surviving
`endTime` is never the sentinel string `"None"` and never equals
`startTime`. -/
theorem postProcessStatus_endTime (si : StatusInfo) :
    (postProcessStatus si).endTime ≠ some ("None".toList) ∧
    ((postProcessStatus si).endTime.isSome = true →
      (postProcessStatus si).endTime ≠ (postProcessStatus si).startTime) := by
  unfold postProcessStatus
  split_ifs with h
  · simp
  · push_neg at h
    exact ⟨h.1, fun _ => h.2⟩

/-- C1 counterexample: on a data line whose timestamps are `[a, b, a]`
with `b ≠ a`, a second distinct timestamp is present, yet
`parseJobStatus` leaves `endTime` null (the code compares the LAST
timestamp with the first, not a second distinct one). -/
theorem c1_counterexample :
    scanTimestamps (cleanLine c1ThreeABA) =
      ["2024-01-01 10:00:00".toList, "2024-01-01 11:00:00".toList,
       "2024-01-01 10:00:00".toList] ∧
    ("2024-01-01 11:00:00".toList ≠ "2024-01-01 10:00:00".toList) ∧
    (parseJobStatus c1ThreeABA).status = "Completed".toList ∧
    (parseJobStatus c1ThreeABA).startTime = some ("2024-01-01T10:00:00Z".toList) ∧
    (parseJobStatus c1ThreeABA).endTime = none := by
  refine ⟨by decide, by decide, by decide, by decide, by decide⟩

/-- C1 (amended): on the first qualifying data line, the first timestamp
becomes `startTime` and the LAST timestamp — when distinct from the
first — becomes `endTime` (with exactly two timestamps this is the
second one); a GUID + `Completed` + two distinct timestamps gives status
`Completed` with `endTime ≠ startTime`; identical timestamps give a null
`endTime`; parsing uses only the first matching data line; and after
post-processing a surviving `endTime` is never `"None"` and never equals
`startTime`. -/
theorem c1_parseJobStatus_amended :
    parseJobStatus c1TwoDistinct =
      { status := "Completed".toList, startTime := some ("2024-01-01T10:00:00Z".toList),
        endTime := some ("2024-01-01T10:05:00Z".toList),
        jobType := some ("RunNotebook".toList) } ∧
    (some ("2024-01-01T10:05:00Z".toList) ≠ some ("2024-01-01T10:00:00Z".toList)) ∧
    parseJobStatus c1TwoEqual =
      { status := "Completed".toList, startTime := some ("2024-01-01T10:00:00Z".toList),
        endTime := none, jobType := some ("RunNotebook".toList) } ∧
    (parseJobStatus c1ThreeABC).endTime = some ("2024-01-01T12:00:00Z".toList) ∧
    parseJobStatus c1TwoLines = parseJobStatus c1TwoDistinct ∧
    (∀ output, (parseJobStatus output).endTime ≠ some ("None".toList) ∧
      ((parseJobStatus output).endTime.isSome = true →
        (parseJobStatus output).endTime ≠ (parseJobStatus output).startTime)) := by
  refine ⟨by decide, by decide, by decide, by decide, by decide, ?_⟩
  intro output
  unfold parseJobStatus
  exact postProcessStatus_endTime _

/-- Witness for C1 (amended): the post-processing clause applied at the
two-distinct-timestamps output. -/
theorem c1_witness :
    (parseJobStatus c1TwoDistinct).endTime ≠ (parseJobStatus c1TwoDistinct).startTime :=
  ((c1_parseJobStatus_amended).2.2.2.2.2 c1TwoDistinct).2 (by decide)

/-- C8: the status keyword is matched case-insensitively but stored with
the input casing, so a lowercase `completed` row yields the
non-canonical status `"completed"`; the poller's case-sensitive
terminal-status check rejects it, so `onJobCompleted` is never invoked
for such a job. -/
theorem c8_lowercase_status_never_completed :
    (parseJobStatus c8Output).status = "completed".toList ∧
    (parseJobStatus c8Output).status ∉
      ["NotStarted".toList, "InProgress".toList, "Completed".toList,
       "Succeeded".toList, "Failed".toList, "Unknown".toList] ∧
    isTerminalStatus (parseJobStatus c8Output).status = false ∧
    completedCallbacks [c8Job] (fun _ => parseJobStatus c8Output) = [] := by
  refine ⟨by decide, by decide, by decide, by decide⟩

/-- C9: `parseWorkspaces` drops header lines, keeps the trimmed part
before the first dot, discards empty results; the concrete example from
the spec; every produced name is nonempty and dot-free; a line whose
trimmed form starts with a configured header prefix contributes
nothing. -/
theorem c9_parseWorkspaces_spec :
    parseWorkspaces ("Listing...\nAlpha.Workspace\nBeta.Workspace\n".toList) =
      ["Alpha".toList, "Beta".toList] ∧
    (∀ output w, w ∈ parseWorkspaces output → w ≠ [] ∧ '.' ∉ w) ∧
    (∀ l rest, '\n' ∉ l →
      skipPatternsDefault.any (fun p => p.isPrefixOf (trim l)) = true →
      parseWorkspaces (l ++ '\n' :: rest) = parseWorkspaces rest) := by
  refine ⟨by decide, ?_, ?_⟩
  · intro output w hw
    unfold parseWorkspaces at hw
    obtain ⟨hmem, hcond⟩ := List.mem_filter.mp hw
    have hw_ne : w ≠ [] := by
      intro hnil
      subst hnil
      simp [List.isEmpty] at hcond
    refine ⟨hw_ne, ?_⟩
    obtain ⟨line, _, hline⟩ := List.mem_map.mp hmem
    intro hdot
    rw [← hline] at hdot
    unfold workspaceName at hdot
    by_cases hd : '.' ∈ line
    · simp only [hd, if_pos] at hdot
      have := List.mem_takeWhile_imp (mem_trim hdot)
      simp at this
    · simp only [hd, if_neg, if_false] at hdot
      exact hd (mem_trim hdot)
  · intro l rest hnl hheader
    unfold parseWorkspaces
    rw [parseLines_cons l rest hnl]
    simp [hheader]

/-- Witness for C9: a header line contributes nothing. -/
theorem c9_witness :
    parseWorkspaces (("Listing files".toList) ++ '\n' :: ("A.B".toList)) =
      parseWorkspaces ("A.B".toList) :=
  (c9_parseWorkspaces_spec).2.2 ("Listing files".toList) ("A.B".toList)
    (by decide) (by decide)

end Weave






